import Mathlib

/-!
Formal model of the request-governance middleware stack of the
smart-kart/framework repository: the token-bucket rate limiter, the
caller-identifier resolver, the JWT claims codec, the CSRF token store and
the authentication interceptor, together with proofs of their stated
properties.  Time is modelled as an integer clock reading; gRPC metadata as
an association list from header keys to lists of string values.
-/

/-- A rate-limiter bucket (struct `bucket` in middleware/rate_limiter.go):
the remaining admission tokens and the clock reading of the last refill. -/
structure Bucket where
  tokens : Int
  lastRefill : Int
deriving DecidableEq

/-- Per-limiter configuration (struct `RateLimiter`): `rate` is the capacity
(requests per window) and `window` the length of the fixed window. -/
structure RateLimiter where
  rate : Int
  window : Int
deriving DecidableEq

/-- The bucket map `limiters`, modelled as an association list from keys to
buckets. -/
abbrev RLState := List (String × Bucket)

/-- Function `getBucket` (rate_limiter.go): return the existing bucket for
`key`, or create a fresh one with `tokens = rate` and `lastRefill = now`
and insert it into the map. -/
def RateLimiter.getBucket (rl : RateLimiter) (st : RLState) (key : String) (now : Int) :
    Bucket × RLState :=
  match st.lookup key with
  | some b => (b, st)
  | none =>
    let b : Bucket := { tokens := rl.rate, lastRefill := now }
    (b, (key, b) :: st)

/-- The per-bucket critical section of `allow` (rate_limiter.go): if the
elapsed time since the last refill has reached the window, reset the bucket
to full capacity at the current time; then admit exactly when a token
remains, consuming one. -/
def RateLimiter.allowBucket (rl : RateLimiter) (b : Bucket) (now : Int) : Bool × Bucket :=
  let elapsed := now - b.lastRefill
  let b1 : Bucket := if elapsed ≥ rl.window then { tokens := rl.rate, lastRefill := now } else b
  if b1.tokens > 0 then (true, { b1 with tokens := b1.tokens - 1 }) else (false, b1)

/-- Store an updated bucket under `key` (the Go code mutates the bucket in
place through the pointer held in the map). -/
def RLState.setBucket (st : RLState) (key : String) (b : Bucket) : RLState :=
  st.map (fun p => if p.1 = key then (key, b) else p)

/-- Method `allow` (rate_limiter.go): look up or create the bucket for
`key`, run the admission check on it, and store the updated bucket. -/
def RateLimiter.allow (rl : RateLimiter) (st : RLState) (key : String) (now : Int) :
    Bool × RLState :=
  let p := rl.getBucket st key now
  let q := rl.allowBucket p.1 now
  (q.1, RLState.setBucket p.2 key q.2)

/-- One pass of `cleanupRoutine` (rate_limiter.go): delete every bucket whose
`lastRefill` is older than the cleanup interval `2 * window`. -/
def RateLimiter.sweep (rl : RateLimiter) (st : RLState) (now : Int) : RLState :=
  st.filter (fun p => !(now - p.2.lastRefill > 2 * rl.window))

/-- Run the per-bucket admission check once at each clock reading in `ts`,
collecting the admission decisions. -/
def RateLimiter.allowRun (rl : RateLimiter) (b : Bucket) : List Int → List Bool × Bucket
  | [] => ([], b)
  | t :: ts =>
    let p := rl.allowBucket b t
    let q := rl.allowRun p.2 ts
    (p.1 :: q.1, q.2)

/-- The bucket invariant: the remaining token count is between 0 and the
configured capacity. -/
def BucketInv (rl : RateLimiter) (b : Bucket) : Prop :=
  0 ≤ b.tokens ∧ b.tokens ≤ rl.rate

/-- The map invariant: every bucket in the map satisfies the bucket
invariant. -/
def StateInv (rl : RateLimiter) (st : RLState) : Prop :=
  ∀ p ∈ st, BucketInv rl p.2

instance (rl : RateLimiter) (b : Bucket) : Decidable (BucketInv rl b) := by
  unfold BucketInv; exact instDecidableAnd

instance (rl : RateLimiter) (st : RLState) : Decidable (StateInv rl st) := by
  unfold StateInv; exact List.decidableBAll _ _

theorem lookup_mem {st : RLState} {key : String} {b : Bucket}
    (h : st.lookup key = some b) : ∃ k, (k, b) ∈ st := by
  induction st with
  | nil => simp [List.lookup] at h
  | cons p st ih =>
    obtain ⟨k, v⟩ := p
    rw [List.lookup] at h
    by_cases hk : key = k
    · subst hk
      simp at h
      exact ⟨key, by simp [h]⟩
    · have : (key == k) = false := beq_false_of_ne hk
      rw [this] at h
      obtain ⟨k1, hk1⟩ := ih h
      exact ⟨k1, List.mem_cons_of_mem _ hk1⟩

theorem bucketInv_allowBucket {rl : RateLimiter} {b : Bucket} {now : Int}
    (hrate : 0 ≤ rl.rate) (hb : BucketInv rl b) :
    BucketInv rl (rl.allowBucket b now).2 := by
  rcases hb with ⟨h0, h1⟩
  simp only [RateLimiter.allowBucket]
  split_ifs with hre htk htk <;>
    refine ⟨?_, ?_⟩ <;> simp only [BucketInv] at * <;> simp at * <;> omega

theorem stateInv_setBucket {rl : RateLimiter} {st : RLState} {key : String} {b : Bucket}
    (hb : BucketInv rl b) (hst : StateInv rl st) :
    StateInv rl (RLState.setBucket st key b) := by
  intro p hp
  rcases List.mem_map.mp hp with ⟨q, hq, rfl⟩
  by_cases h : q.1 = key
  · simpa [h] using hb
  · simpa [h] using hst q hq

theorem bucketInv_getBucket {rl : RateLimiter} {st : RLState} {key : String} {now : Int}
    (hrate : 0 ≤ rl.rate) (hst : StateInv rl st) :
    BucketInv rl (rl.getBucket st key now).1 ∧ StateInv rl (rl.getBucket st key now).2 := by
  unfold RateLimiter.getBucket
  cases hl : st.lookup key with
  | some b =>
    obtain ⟨k, hk⟩ := lookup_mem hl
    exact ⟨hst _ hk, hst⟩
  | none =>
    refine ⟨⟨hrate, le_refl _⟩, ?_⟩
    intro p hp
    rcases List.mem_cons.mp hp with rfl | hp
    · exact ⟨hrate, le_refl _⟩
    · exact hst p hp

/-- C7: after bucket creation (`getBucket`), an admission check (`allow`) and
a cleanup sweep, every bucket holds between 0 and `rate` tokens: the
remaining count never exceeds capacity and never goes negative. -/
theorem rate_limiter_invariant (rl : RateLimiter) (st : RLState) (key : String) (now : Int)
    (hrate : 0 ≤ rl.rate) (hst : StateInv rl st) :
    BucketInv rl (rl.getBucket st key now).1 ∧
    StateInv rl (rl.getBucket st key now).2 ∧
    StateInv rl (rl.allow st key now).2 ∧
    StateInv rl (rl.sweep st now) := by
  obtain ⟨hb, hst1⟩ := bucketInv_getBucket hrate hst
  refine ⟨hb, hst1, ?_, ?_⟩
  · unfold RateLimiter.allow
    exact stateInv_setBucket (bucketInv_allowBucket hrate hb) hst1
  · intro p hp
    exact hst p (List.mem_of_mem_filter hp)

/-- Witness for C7 at a concrete limiter, map, key and time. -/
theorem rate_limiter_invariant_witness :
    StateInv ⟨3, 60⟩ [("a", ⟨2, 5⟩)] ∧
    (BucketInv ⟨3, 60⟩ ((⟨3, 60⟩ : RateLimiter).getBucket [("a", ⟨2, 5⟩)] "k" 7).1 ∧
     StateInv ⟨3, 60⟩ ((⟨3, 60⟩ : RateLimiter).getBucket [("a", ⟨2, 5⟩)] "k" 7).2 ∧
     StateInv ⟨3, 60⟩ ((⟨3, 60⟩ : RateLimiter).allow [("a", ⟨2, 5⟩)] "k" 7).2 ∧
     StateInv ⟨3, 60⟩ ((⟨3, 60⟩ : RateLimiter).sweep [("a", ⟨2, 5⟩)] 7)) :=
  ⟨by decide, rate_limiter_invariant ⟨3, 60⟩ [("a", ⟨2, 5⟩)] "k" 7 (by decide) (by decide)⟩

theorem allowBucket_no_refill {rl : RateLimiter} {b : Bucket} {now : Int}
    (h : ¬ now - b.lastRefill ≥ rl.window) :
    rl.allowBucket b now =
      if b.tokens > 0 then (true, { b with tokens := b.tokens - 1 }) else (false, b) := by
  simp only [RateLimiter.allowBucket, if_neg h]

theorem allowBucket_refill {rl : RateLimiter} {b : Bucket} {now : Int}
    (h : now - b.lastRefill ≥ rl.window) (hr : 0 < rl.rate) :
    rl.allowBucket b now = (true, { tokens := rl.rate - 1, lastRefill := now }) := by
  simp only [RateLimiter.allowBucket]
  split_ifs
  rfl

theorem allowRun_drain (rl : RateLimiter) (t0 : Int) (ts : List Int) :
    ∀ b : Bucket, b.lastRefill = t0 →
      (∀ t ∈ ts, t - t0 < rl.window) → b.tokens = (ts.length : Int) →
      rl.allowRun b ts = (List.replicate ts.length true, ⟨0, t0⟩) := by
  induction ts with
  | nil =>
    intro b hlr _ htok
    obtain ⟨tk, lr⟩ := b
    simp only [List.length_nil, Nat.cast_zero] at htok
    simp only at hlr htok
    subst hlr htok
    simp [RateLimiter.allowRun]
  | cons t ts ih =>
    intro b hlr hts htok
    have hpos : b.tokens > 0 := by
      rw [htok]; simp only [List.length_cons]; positivity
    have hnr : ¬ t - b.lastRefill ≥ rl.window := by
      rw [hlr]; exact not_le.mpr (hts t (List.mem_cons_self t ts))
    have hstep := allowBucket_no_refill hnr
    rw [if_pos hpos] at hstep
    simp only [RateLimiter.allowRun, hstep]
    have htail := ih { b with tokens := b.tokens - 1 } hlr
      (fun u hu => hts u (List.mem_cons_of_mem t hu))
      (by simp only [List.length_cons] at htok; simp; omega)
    rw [htail]
    simp [List.replicate_succ]

/-- C2: starting from the bucket `getBucket` creates at time `t0`, every one
of the first `rate` admission checks inside the window is admitted; a further
check still inside the window is rejected; and a check whose elapsed time
since the last refill reaches the window is admitted after a full reset,
leaving `rate - 1` tokens. -/
theorem rate_limiter_window (rl : RateLimiter) (key : String) (t0 : Int) (ts : List Int)
    (tNext tLater : Int)
    (hC : 1 ≤ rl.rate)
    (hlen : (ts.length : Int) = rl.rate)
    (hts : ∀ t ∈ ts, t - t0 < rl.window)
    (hNext : tNext - t0 < rl.window)
    (hLater : rl.window ≤ tLater - t0) :
    (rl.allowRun ((rl.getBucket [] key t0).1) ts).1 = List.replicate ts.length true ∧
    (rl.allowBucket (rl.allowRun ((rl.getBucket [] key t0).1) ts).2 tNext).1 = false ∧
    (rl.allowBucket (rl.allowRun ((rl.getBucket [] key t0).1) ts).2 tLater).1 = true ∧
    (rl.allowBucket (rl.allowRun ((rl.getBucket [] key t0).1) ts).2 tLater).2.tokens
      = rl.rate - 1 := by
  have hfresh : (rl.getBucket [] key t0).1 = ⟨rl.rate, t0⟩ := by
    simp [RateLimiter.getBucket, List.lookup]
  have hdrain := allowRun_drain rl t0 ts ⟨rl.rate, t0⟩ rfl hts (by simpa using hlen.symm)
  rw [hfresh, hdrain]
  refine ⟨rfl, ?_, ?_, ?_⟩
  · rw [allowBucket_no_refill (by simpa using not_le.mpr hNext)]
    simp
  · rw [allowBucket_refill (by simpa using hLater) (by omega)]
  · rw [allowBucket_refill (by simpa using hLater) (by omega)]

/-- Witness for C2: capacity 2, window 10, checks at times 1 and 5, an extra
check at time 7 rejected, a check at time 12 admitted leaving 1 token. -/
theorem rate_limiter_window_witness :
    ((⟨2, 10⟩ : RateLimiter).allowRun (((⟨2, 10⟩ : RateLimiter).getBucket [] "k" 0).1)
        [1, 5]).1 = List.replicate 2 true ∧
    ((⟨2, 10⟩ : RateLimiter).allowBucket
      ((⟨2, 10⟩ : RateLimiter).allowRun
        (((⟨2, 10⟩ : RateLimiter).getBucket [] "k" 0).1) [1, 5]).2 7).1 = false ∧
    ((⟨2, 10⟩ : RateLimiter).allowBucket
      ((⟨2, 10⟩ : RateLimiter).allowRun
        (((⟨2, 10⟩ : RateLimiter).getBucket [] "k" 0).1) [1, 5]).2 12).1 = true ∧
    ((⟨2, 10⟩ : RateLimiter).allowBucket
      ((⟨2, 10⟩ : RateLimiter).allowRun
        (((⟨2, 10⟩ : RateLimiter).getBucket [] "k" 0).1) [1, 5]).2 12).2.tokens = 2 - 1 :=
  rate_limiter_window ⟨2, 10⟩ "k" 0 [1, 5] 7 12 (by decide) (by decide)
    (by decide) (by decide) (by decide)

/-- A JWT signing algorithm, as recorded in the token header. -/
inductive Alg where
  | HS256
  | HS384
  | HS512
  | RS256
  | ES256
deriving DecidableEq

/-- The keyfunc test in `ValidateToken` (jwt/manager.go): the token's method
must belong to the HMAC family (`jwt.SigningMethodHMAC`). -/
def Alg.isHMAC : Alg → Bool
  | .HS256 => true
  | .HS384 => true
  | .HS512 => true
  | _ => false

/-- The claims embedded in a token (struct `JWTClaims` in jwt/manager.go,
with the registered claims flattened). -/
structure JWTClaims where
  userID : String
  email : String
  role : String
  expiresAt : Int
  issuedAt : Int
  notBefore : Int
  issuer : String
deriving DecidableEq

/-- A symbolic signature value: either an HMAC over the token's header and
claims under a secret key, or an arbitrary blob produced by some non-HMAC
scheme. -/
inductive Sig where
  | hmac (key : String) (alg : Alg) (payload : JWTClaims)
  | blob (data : String)
deriving DecidableEq

/-- A decoded JWT: header algorithm, claims, and signature. -/
structure Token where
  alg : Alg
  claims : JWTClaims
  sig : Sig
deriving DecidableEq

/-- The sentinel errors of jwt/manager.go. -/
inductive JWTError where
  | ErrInvalidToken
  | ErrExpiredToken
  | ErrTokenNotValidYet
deriving DecidableEq

/-- Struct `JWTManager` (jwt/manager.go). -/
structure JWTManager where
  secretKey : String
  accessTokenTTL : Int
  refreshTokenTTL : Int
  issuer : String
deriving DecidableEq

/-- Method `generateTokenWithRole` (jwt/manager.go): build claims with
`expiresAt = now + ttl`, `issuedAt = now`, `notBefore = now` and the
configured issuer, and sign them with HS256 under the manager's secret. -/
def JWTManager.generateTokenWithRole (m : JWTManager) (userID email role : String)
    (ttl : Int) (now : Int) : Token :=
  let claims : JWTClaims :=
    { userID := userID, email := email, role := role,
      expiresAt := now + ttl, issuedAt := now, notBefore := now, issuer := m.issuer }
  { alg := .HS256, claims := claims, sig := .hmac m.secretKey .HS256 claims }

/-- Method `ValidateToken` (jwt/manager.go) over golang-jwt v5 parsing order:
the keyfunc rejects any non-HMAC signing method with `ErrInvalidToken`; the
signature is then verified against the manager's secret; claims validation
requires the current time to be before `expiresAt` (strictly) and not before
`notBefore`, and `ValidateToken` maps an expiry failure to `ErrExpiredToken`
before a not-yet-valid failure. -/
def JWTManager.ValidateToken (m : JWTManager) (tok : Token) (now : Int) :
    Except JWTError JWTClaims :=
  if !tok.alg.isHMAC then .error .ErrInvalidToken
  else if tok.sig ≠ Sig.hmac m.secretKey tok.alg tok.claims then .error .ErrInvalidToken
  else if tok.claims.expiresAt ≤ now then .error .ErrExpiredToken
  else if now < tok.claims.notBefore then .error .ErrTokenNotValidYet
  else .ok tok.claims

/-- C3: a token issued at `iat` with time-to-live `ttl` validates to its own
claims at every check time in `[iat, iat + ttl)` and fails with
`ErrExpiredToken` at every check time at or past `iat + ttl`. -/
theorem token_ttl_window (m : JWTManager) (u e r : String) (ttl iat t : Int) :
    (iat ≤ t ∧ t < iat + ttl →
      m.ValidateToken (m.generateTokenWithRole u e r ttl iat) t =
        .ok (m.generateTokenWithRole u e r ttl iat).claims) ∧
    (iat + ttl ≤ t →
      m.ValidateToken (m.generateTokenWithRole u e r ttl iat) t =
        .error .ErrExpiredToken) := by
  constructor
  · rintro ⟨h1, h2⟩
    simp only [JWTManager.ValidateToken, JWTManager.generateTokenWithRole]
    rw [if_neg (by simp [Alg.isHMAC]), if_neg (by simp), if_neg (by simpa using not_le.mpr h2),
      if_neg (by simpa using not_lt.mpr h1)]
  · intro h
    simp only [JWTManager.ValidateToken, JWTManager.generateTokenWithRole]
    rw [if_neg (by simp [Alg.isHMAC]), if_neg (by simp), if_pos (by simpa using h)]

/-- Witness for C3: issuer at time 0 with ttl 10; validation succeeds at
time 5 and fails expired at time 10. -/
theorem token_ttl_window_witness :
    (⟨"k", 10, 100, "iss"⟩ : JWTManager).ValidateToken
        ((⟨"k", 10, 100, "iss"⟩ : JWTManager).generateTokenWithRole "u" "e" "r" 10 0) 5 =
      .ok ((⟨"k", 10, 100, "iss"⟩ : JWTManager).generateTokenWithRole "u" "e" "r" 10 0).claims ∧
    (⟨"k", 10, 100, "iss"⟩ : JWTManager).ValidateToken
        ((⟨"k", 10, 100, "iss"⟩ : JWTManager).generateTokenWithRole "u" "e" "r" 10 0) 10 =
      .error .ErrExpiredToken :=
  ⟨(token_ttl_window ⟨"k", 10, 100, "iss"⟩ "u" "e" "r" 10 0 5).1 (by decide),
   (token_ttl_window ⟨"k", 10, 100, "iss"⟩ "u" "e" "r" 10 0 10).2 (by decide)⟩

/-- C4: a token whose signing algorithm is outside the HMAC family is
rejected with the generic `ErrInvalidToken` at every check time, whatever
its claims and signature are. -/
theorem wrong_alg_family_rejected (m : JWTManager) (tok : Token) (now : Int)
    (h : tok.alg.isHMAC = false) :
    m.ValidateToken tok now = .error .ErrInvalidToken := by
  simp only [JWTManager.ValidateToken, h]
  simp

/-- Witness for C4: an RS256 token with an arbitrary signature blob. -/
theorem wrong_alg_family_rejected_witness :
    (⟨"k", 10, 100, "iss"⟩ : JWTManager).ValidateToken
        ⟨.RS256, ⟨"u", "e", "r", 100, 0, 0, "iss"⟩, .blob "valid-rsa-signature"⟩ 5 =
      .error .ErrInvalidToken :=
  wrong_alg_family_rejected ⟨"k", 10, 100, "iss"⟩
    ⟨.RS256, ⟨"u", "e", "r", 100, 0, 0, "iss"⟩, .blob "valid-rsa-signature"⟩ 5 (by decide)

/-- C6: issuing a token and validating it immediately (at the issuance time)
succeeds and returns claims carrying the same subject identifier and role. -/
theorem issue_validate_round_trip (m : JWTManager) (u e r : String) (ttl now : Int)
    (h : 0 < ttl) :
    m.ValidateToken (m.generateTokenWithRole u e r ttl now) now =
      .ok (m.generateTokenWithRole u e r ttl now).claims ∧
    (m.generateTokenWithRole u e r ttl now).claims.userID = u ∧
    (m.generateTokenWithRole u e r ttl now).claims.role = r := by
  refine ⟨(token_ttl_window m u e r ttl now now).1 ⟨le_refl now, by omega⟩, rfl, rfl⟩

/-- Witness for C6 at a concrete manager, subject, role and time. -/
theorem issue_validate_round_trip_witness :
    (⟨"secret", 15, 168, "iss"⟩ : JWTManager).ValidateToken
        ((⟨"secret", 15, 168, "iss"⟩ : JWTManager).generateTokenWithRole
          "alice" "a@b.c" "admin" 15 1000) 1000 =
      .ok ((⟨"secret", 15, 168, "iss"⟩ : JWTManager).generateTokenWithRole
          "alice" "a@b.c" "admin" 15 1000).claims ∧
    ((⟨"secret", 15, 168, "iss"⟩ : JWTManager).generateTokenWithRole
        "alice" "a@b.c" "admin" 15 1000).claims.userID = "alice" ∧
    ((⟨"secret", 15, 168, "iss"⟩ : JWTManager).generateTokenWithRole
        "alice" "a@b.c" "admin" 15 1000).claims.role = "admin" :=
  issue_validate_round_trip ⟨"secret", 15, 168, "iss"⟩ "alice" "a@b.c" "admin" 15 1000
    (by decide)

/-- A stored CSRF token (struct `csrfToken` in middleware/csrf.go): the
opaque value, its creation time and the identity it is bound to. -/
structure CsrfEntry where
  token : String
  createdAt : Int
  userID : String
deriving DecidableEq

/-- Struct `CSRFProtection` (middleware/csrf.go): the token store, modelled
as an association list keyed by the token value, and the configured ttl. -/
structure CSRFProtection where
  tokens : List (String × CsrfEntry)
  ttl : Int
deriving DecidableEq

/-- Method `GenerateToken` (csrf.go), with the random value supplied as an
argument: store the token keyed by its own value with the current time and
the bound identity, and return it. -/
def CSRFProtection.GenerateToken (c : CSRFProtection) (randomToken userID : String)
    (now : Int) : String × CSRFProtection :=
  (randomToken,
   { c with tokens :=
      (randomToken, { token := randomToken, createdAt := now, userID := userID })
        :: c.tokens })

/-- Method `ValidateToken` (csrf.go): under a read lock, fail if the token
is absent, if `now - createdAt > ttl`, or if the bound identity differs from
the presented one; succeed otherwise.  The method performs no writes, so the
receiver state after the call is returned unchanged. -/
def CSRFProtection.ValidateToken (c : CSRFProtection) (token userID : String)
    (now : Int) : Bool × CSRFProtection :=
  let ok : Bool :=
    match c.tokens.lookup token with
    | none => false
    | some e =>
      if now - e.createdAt > c.ttl then false
      else if e.userID ≠ userID then false
      else true
  (ok, c)

/-- Method `InvalidateToken` (csrf.go): delete the token from the store. -/
def CSRFProtection.InvalidateToken (c : CSRFProtection) (token : String) :
    CSRFProtection :=
  { c with tokens := c.tokens.filter (fun p => p.1 ≠ token) }

/-- Counterexample to C5 as stated: with ttl 10, a token created at time 0
and presented by its own identity at time 10, we have now - creation = 10 ≥
ttl, yet validation still accepts (the code only rejects when now -
creation strictly exceeds ttl). -/
theorem csrf_boundary_counterexample :
    (10 : Int) - 0 ≥ (10 : Int) ∧
    ((⟨[("t", ⟨"t", 0, "A"⟩)], 10⟩ : CSRFProtection).ValidateToken "t" "A" 10).1 = true :=
  ⟨by decide, by decide⟩

/-- C5 (amended): a stored token bound to identity `A` is accepted when
presented by `A` while `now - createdAt ≤ ttl`, rejected once
`now - createdAt > ttl`, and rejected at any time when presented by an
identity `B ≠ A`. -/
theorem csrf_validity (c : CSRFProtection) (tk A B : String) (e : CsrfEntry)
    (now anytime : Int)
    (hl : c.tokens.lookup tk = some e) (hA : e.userID = A) (hB : B ≠ A) :
    (now - e.createdAt ≤ c.ttl → (c.ValidateToken tk A now).1 = true) ∧
    (now - e.createdAt > c.ttl → (c.ValidateToken tk A now).1 = false) ∧
    (c.ValidateToken tk B anytime).1 = false := by
  refine ⟨?_, ?_, ?_⟩
  · intro h
    simp only [CSRFProtection.ValidateToken, hl]
    rw [if_neg (not_lt.mpr h), if_neg (by simp [hA])]
  · intro h
    simp only [CSRFProtection.ValidateToken, hl]
    rw [if_pos h]
  · simp only [CSRFProtection.ValidateToken, hl]
    split_ifs with h1 h2
    · rfl
    · rfl
    · rw [not_ne_iff] at h2
      exact absurd (hA ▸ h2) (fun hba => hB hba.symm)

/-- Witness for the amended C5: ttl 10, token created at 0 and bound to A;
accepted by A at time 7, rejected by A at time 11, rejected by B at 3. -/
theorem csrf_validity_witness :
    (((⟨[("t", ⟨"t", 0, "A"⟩)], 10⟩ : CSRFProtection).ValidateToken "t" "A" 7).1 = true) ∧
    (((⟨[("t", ⟨"t", 0, "A"⟩)], 10⟩ : CSRFProtection).ValidateToken "t" "A" 11).1 = false) ∧
    (((⟨[("t", ⟨"t", 0, "A"⟩)], 10⟩ : CSRFProtection).ValidateToken "t" "B" 3).1 = false) :=
  ⟨(csrf_validity ⟨[("t", ⟨"t", 0, "A"⟩)], 10⟩ "t" "A" "B" ⟨"t", 0, "A"⟩ 7 3
      (by decide) (by decide) (by decide)).1 (by decide),
   (csrf_validity ⟨[("t", ⟨"t", 0, "A"⟩)], 10⟩ "t" "A" "B" ⟨"t", 0, "A"⟩ 11 3
      (by decide) (by decide) (by decide)).2.1 (by decide),
   (csrf_validity ⟨[("t", ⟨"t", 0, "A"⟩)], 10⟩ "t" "A" "B" ⟨"t", 0, "A"⟩ 7 3
      (by decide) (by decide) (by decide)).2.2⟩

/-- C9: CSRF validation is read-only: it leaves the token store unchanged,
and repeating the same validation immediately on the resulting store gives
the same outcome — in particular a token that validated successfully
validates successfully again (reusable until expiry or explicit
invalidation). -/
theorem csrf_validate_readonly (c : CSRFProtection) (tk uid : String) (now : Int) :
    (c.ValidateToken tk uid now).2 = c ∧
    (c.ValidateToken tk uid now).2.ValidateToken tk uid now =
      c.ValidateToken tk uid now := by
  exact ⟨rfl, rfl⟩

/-- gRPC metadata: a map from header keys to lists of string values,
modelled as an association list. -/
abbrev Metadata := List (String × List String)

/-- md.Get(key): the values stored under a key, empty when absent. -/
def Metadata.get (md : Metadata) (k : String) : List String :=
  (md.lookup k).getD []

/-- The parts of a call context that the middleware inspects: the incoming
metadata (absent when `metadata.FromIncomingContext` fails) and the legacy
string context value stored under the user-id key. -/
structure Ctx where
  md : Option Metadata
  ctxUserID : Option String
deriving DecidableEq

/-- The first metadata value under a key, as the Go code reads it with
`md.Get(k)[0]`; empty when the metadata or the key is absent. -/
def Ctx.firstVal (c : Ctx) (k : String) : String :=
  ((c.md.getD []).get k).headD ""

/-- PRIORITY 1 of `extractIdentifier` (rate_limiter.go): a non-empty first
`user_id` metadata value, set by the auth middleware. -/
def idFromMetadataUserID (c : Ctx) : Option String :=
  match c.md with
  | none => none
  | some md =>
    match md.get "user_id" with
    | [] => none
    | v :: _ => if v ≠ "" then some ("user:" ++ v) else none

/-- PRIORITY 2 of `extractIdentifier`: the legacy `user_id` context value. -/
def idFromCtxValue (c : Ctx) : Option String :=
  match c.ctxUserID with
  | none => none
  | some v => if v ≠ "" then some ("user:" ++ v) else none


/-- Helper for splitting at commas: accumulate the current field in reverse
until a comma or the end of the input. -/
def splitCommaAux : List Char → List Char → List String
  | [], acc => [String.mk acc.reverse]
  | ch :: cs, acc =>
    if ch = ',' then String.mk acc.reverse :: splitCommaAux cs []
    else splitCommaAux cs (ch :: acc)

/-- Translation of `strings.Split(s, ",")`: the fields of `s` between commas,
keeping empty fields; the result is never empty. -/
def splitComma (s : String) : List String :=
  splitCommaAux s.toList []

/-- Translation of `strings.TrimSpace`: drop leading and trailing whitespace
characters. -/
def trimSpace (s : String) : String :=
  String.mk (((s.toList.dropWhile Char.isWhitespace).reverse.dropWhile
    Char.isWhitespace).reverse)

/-- The forwarded-for fallback inside PRIORITY 3: take the first
`x-forwarded-for` value, split it at commas, trim the left-most entry, and
use it only when non-empty. -/
def idFromXff (md : Metadata) : Option String :=
  match md.get "x-forwarded-for" with
  | [] => none
  | v :: _ =>
    if v ≠ "" then
      if trimSpace ((splitComma v).headD "") ≠ ""
        then some ("ip:" ++ trimSpace ((splitComma v).headD ""))
        else none
    else none

/-- PRIORITY 3 of `extractIdentifier`: the trusted `x-real-ip` header, then
the left-most `x-forwarded-for` entry. -/
def idFromIPHeaders (c : Ctx) : Option String :=
  match c.md with
  | none => none
  | some md =>
    match md.get "x-real-ip" with
    | v :: _ => if v ≠ "" then some ("ip:" ++ v) else idFromXff md
    | [] => idFromXff md

/-- The error message `extractIdentifier` fails with. -/
def identifyErrMsg : String := "unable to identify client: no user_id or IP address found"

/-- Function `extractIdentifier` (rate_limiter.go): try the three priorities
in order; with no usable signal, fail with an error rather than fall back to
a placeholder. -/
def extractIdentifier (c : Ctx) : Except String String :=
  match idFromMetadataUserID c with
  | some r => .ok r
  | none =>
    match idFromCtxValue c with
    | some r => .ok r
    | none =>
      match idFromIPHeaders c with
      | some r => .ok r
      | none => .error identifyErrMsg

/-- C1: when the first `user_id` metadata value is empty or absent, the
legacy context value is empty or absent, the first `x-real-ip` value is
empty or absent, and the trimmed left-most `x-forwarded-for` entry is empty,
`extractIdentifier` fails with its error; it returns no placeholder and no
empty identifier. -/
theorem unresolved_identity_fails (c : Ctx)
    (h1 : c.firstVal "user_id" = "")
    (h2 : c.ctxUserID.getD "" = "")
    (h3 : c.firstVal "x-real-ip" = "")
    (h4 : trimSpace ((splitComma (c.firstVal "x-forwarded-for")).headD "") = "") :
    extractIdentifier c = .error identifyErrMsg := by
  have hp1 : idFromMetadataUserID c = none := by
    unfold idFromMetadataUserID
    cases hmd : c.md with
    | none => rfl
    | some md =>
      simp only [Ctx.firstVal, hmd, Option.getD_some] at h1
      cases hgu : md.get "user_id" with
      | nil => simp [hgu]
      | cons v vs =>
        rw [hgu] at h1
        simp only [List.headD_cons] at h1
        simp [hgu, h1]
  have hp2 : idFromCtxValue c = none := by
    unfold idFromCtxValue
    cases hcu : c.ctxUserID with
    | none => rfl
    | some v =>
      rw [hcu] at h2
      simp only [Option.getD_some] at h2
      simp [h2]
  have hp3 : idFromIPHeaders c = none := by
    unfold idFromIPHeaders
    cases hmd : c.md with
    | none => rfl
    | some md =>
      simp only [Ctx.firstVal, hmd, Option.getD_some] at h3 h4
      have hxff : idFromXff md = none := by
        unfold idFromXff
        cases hx : md.get "x-forwarded-for" with
        | nil => simp [hx]
        | cons v vs =>
          rw [hx] at h4
          simp only [List.headD_cons] at h4
          simp only [hx]
          by_cases hv : v = ""
          · simp [hv]
          · rw [if_pos hv, if_neg (fun hcon => hcon h4)]
      cases hri : md.get "x-real-ip" with
      | nil => simp [hri, hxff]
      | cons v vs =>
        rw [hri] at h3
        simp only [List.headD_cons] at h3
        simp [hri, h3, hxff]
  simp [extractIdentifier, hp1, hp2, hp3]

/-- Witness for C1: metadata with an empty user id, an empty real-ip value
and a whitespace-only forwarded-for chain, plus an empty legacy value. -/
theorem unresolved_identity_fails_witness :
    extractIdentifier
      ⟨some [("user_id", [""]), ("x-real-ip", [""]), ("x-forwarded-for", [" , 10.0.0.1"])],
       some ""⟩ = .error identifyErrMsg :=
  unresolved_identity_fails
    ⟨some [("user_id", [""]), ("x-real-ip", [""]), ("x-forwarded-for", [" , 10.0.0.1"])],
     some ""⟩ (by decide) (by decide) (by decide) (by decide)

/-- C10: whenever the first `user_id` metadata value is a non-empty `v` —
no matter which component put it there — `extractIdentifier` resolves to
`user:` followed by `v`. -/
theorem user_id_metadata_resolves (c : Ctx) (v : String)
    (h : c.firstVal "user_id" = v) (hv : v ≠ "") :
    extractIdentifier c = .ok ("user:" ++ v) := by
  have hp1 : idFromMetadataUserID c = some ("user:" ++ v) := by
    unfold idFromMetadataUserID
    cases hmd : c.md with
    | none =>
      simp only [Ctx.firstVal, hmd, Option.getD_none] at h
      exact absurd h.symm (by simpa [Metadata.get, List.lookup] using hv)
    | some md =>
      simp only [Ctx.firstVal, hmd, Option.getD_some] at h
      cases hgu : md.get "user_id" with
      | nil =>
        rw [hgu] at h
        simp only [List.headD_nil] at h
        exact absurd h.symm hv
      | cons w ws =>
        rw [hgu] at h
        simp only [List.headD_cons] at h
        subst h
        simp [hgu, hv]
  simp [extractIdentifier, hp1]

/-- Witness for C10: a caller-supplied `user_id` entry resolves exactly like
an auth-middleware-supplied one. -/
theorem user_id_metadata_resolves_witness :
    extractIdentifier ⟨some [("user_id", ["alice"]), ("x-real-ip", ["1.2.3.4"])], none⟩ =
      .ok ("user:" ++ "alice") :=
  user_id_metadata_resolves
    ⟨some [("user_id", ["alice"]), ("x-real-ip", ["1.2.3.4"])], none⟩ "alice"
    (by decide) (by decide)

/-- The authorization headers as auth.go reads them: the `authorization`
values, falling back to `grpcgateway-authorization` when absent. -/
def authHeadersOf (md : Metadata) : List String :=
  match md.get "authorization" with
  | [] => md.get "grpcgateway-authorization"
  | hs => hs

/-- metadata.Join of a single pair with the incoming metadata: append the
value to the list stored under the key, creating the key when absent. -/
def Metadata.appendVal (md : Metadata) (k v : String) : Metadata :=
  match md.lookup k with
  | some vs => md.map (fun p => if p.1 = k then (p.1, vs ++ [v]) else p)
  | none => md ++ [(k, [v])]

/-- `AuthInterceptor` (middleware/auth.go), over an abstract claims
validator standing for `jwt.GetJWTManager().ValidateToken` on the serialized
token string: on a well-formed `Bearer <token>` header whose token validates
with a non-empty user id, attach the user id to the incoming metadata;
in every other case invoke the handler on the unchanged context.  The
handler's result is returned as is. -/
def authInterceptor {α : Type} (validate : String → Except JWTError JWTClaims)
    (handler : Ctx → α) (c : Ctx) : α :=
  match c.md with
  | none => handler c
  | some md =>
    match authHeadersOf md with
    | [] => handler c
    | authHeader :: _ =>
      if !authHeader.startsWith "Bearer " then handler c
      else
        let token := authHeader.drop 7
        if token = "" then handler c
        else
          match validate token with
          | .error _ => handler c
          | .ok claims =>
            if claims.userID ≠ "" then
              handler { c with md := some (md.appendVal "user_id" claims.userID) }
            else handler c

/-- C8: the authentication stage never produces a result of its own: it
always returns the handler's result, on the original context or — exactly
when some bearer token validates with a non-empty user id — on the context
whose metadata has that user id appended. -/
theorem auth_interceptor_transparent {α : Type}
    (validate : String → Except JWTError JWTClaims) (handler : Ctx → α) (c : Ctx) :
    authInterceptor validate handler c = handler c ∨
    ∃ md tk claims, c.md = some md ∧ validate tk = .ok claims ∧ claims.userID ≠ "" ∧
      authInterceptor validate handler c =
        handler { c with md := some (md.appendVal "user_id" claims.userID) } := by
  cases hmd : c.md with
  | none => exact Or.inl (by simp [authInterceptor, hmd])
  | some md =>
    cases hah : authHeadersOf md with
    | nil => exact Or.inl (by simp [authInterceptor, hmd, hah])
    | cons authHeader rest =>
      by_cases hpre : authHeader.startsWith "Bearer "
      · by_cases htok : authHeader.drop 7 = ""
        · exact Or.inl (by simp [authInterceptor, hmd, hah, hpre, htok])
        · cases hv : validate (authHeader.drop 7) with
          | error e =>
            exact Or.inl (by simp [authInterceptor, hmd, hah, hpre, htok, hv])
          | ok claims =>
            by_cases huid : claims.userID = ""
            · exact Or.inl (by simp [authInterceptor, hmd, hah, hpre, htok, hv, huid])
            · refine Or.inr ⟨md, authHeader.drop 7, claims, rfl, hv, huid, ?_⟩
              simp [authInterceptor, hmd, hah, hpre, htok, hv, huid]
      · exact Or.inl (by simp [authInterceptor, hmd, hah, hpre])
